import Mathlib

set_option maxRecDepth 8192

/-!
Shallow embedding of the ceph-medic collector (ceph_medic/collector.py):
the per-node path/stat collection (collect_paths) and the cluster-wide
collection loop (collect), together with the remote-side oracles the
collector consumes (connection opening, the remote walker and stat
operations), which live outside the collector source and are modelled
from the specification where needed.
-/

namespace CephMedic

/-- Outcome rendering of one loader line: the source writes the phase
label in yellow (work pending), green (success) or red (failure). -/
inductive Status where
  | pending
  | success
  | failure
  deriving DecidableEq, Repr

/-- A progress notification written by collect.  Lines with the
connection format become connection events, lines with the collecting
format become collecting events; committed marks the store assignment on
source line 172 and closed the conn.exit() call on line 173. -/
inductive Event where
  | connection (host : String) (label : String) (status : Status)
  | collecting (host : String) (label : String) (status : Status)
  | committed (role : String) (host : String)
  | closed (host : String)
  deriving DecidableEq, Repr

/-- Modelled from the spec: the error raised by a remote operation after a
channel is established (spec section 7, RemoteCallError).  The concrete
exception classes live in the remote modules, which are not part of the
collector source. -/
inductive RemoteError where
  | remoteCallError (msg : String)
  deriving DecidableEq, Repr

/-- Modelled from the spec: the record produced by the remote stat_path
operation (ceph_medic.remote.functions, not under the collector source).
The record is abstracted to the path that was statted, the content-capture
flag the call received, and the optionally captured contents: per spec
section 4.3 contents are attached exactly when capture is requested. -/
structure StatRecord where
  path : String
  flag : Bool
  contents : Option String
  deriving DecidableEq, Repr

/-- Result of the remote path_tree walk: the lists of absolute file paths
and directory paths discovered under a root.  The walker itself is not
part of the collector source; collect_paths only consumes these lists. -/
structure Tree where
  files : List String
  dirs : List String
  deriving DecidableEq, Repr

/-- Modelled from the spec: the remote peer channel (the execnet
connection with the imported remote module) as consumed by the collector.
Each remote operation either returns a value or raises a RemoteError.
stat_path takes the path and the get_contents flag; the two middle
arguments of the python call are the literal None constants and are
omitted. -/
structure Conn where
  path_tree : String → Option (List String) → Option (List String) → Bool →
    Except RemoteError Tree
  stat_path : String → Bool → Except RemoteError StatRecord
  ceph_version : Except RemoteError String
  ceph_is_installed : Except RemoteError Bool

/-- One remote call issued by collect_paths, recorded in issue order. -/
inductive RemoteCall where
  | path_tree (p : String) (skip_dirs : Option (List String))
      (skip_files : Option (List String)) (get_contents : Bool)
  | stat_path (path : String) (get_contents : Bool)
  deriving DecidableEq, Repr

/-- The per-root collection rules of the paths dictionary in
collect_paths: kw.get on skip_dirs and skip_files returns none when the
key is absent; get_contents is present in every entry of the source
dictionary. -/
structure Rules where
  skip_dirs : Option (List String)
  skip_files : Option (List String)
  get_contents : Bool
  deriving DecidableEq, Repr

/-- Python dict assignment d[k] = v: replaces the value in place when the
key is present, otherwise appends the pair at the end (insertion order is
preserved, as in the source interpreter). -/
def dinsert {α : Type} (k : String) (v : α) :
    List (String × α) → List (String × α)
  | [] => [(k, v)]
  | (k₁, v₁) :: rest =>
    if k₁ = k then (k, v) :: rest else (k₁, v₁) :: dinsert k v rest

/-- Python dict lookup d.get(k): the first (hence unique) binding of k. -/
def dget {α : Type} (k : String) : List (String × α) → Option α
  | [] => none
  | (k₁, v₁) :: rest => if k₁ = k then some v₁ else dget k rest

/-- The paths-of-interest dictionary of collect_paths (source lines 76 to
84), in its source order. -/
def paths : List (String × Rules) :=
  [("/etc/ceph", ⟨none, none, true⟩),
   ("/var/lib/ceph",
     ⟨some ["current", "store.db"], some ["activate.monmap", "superblock"], true⟩),
   ("/var/run/ceph", ⟨none, none, false⟩)]

/-- The per-root value stored in path_metadata: the dirs and files dicts. -/
structure RootMeta where
  dirs : List (String × StatRecord)
  files : List (String × StatRecord)
  deriving DecidableEq, Repr

/-- The files loop of collect_paths (source lines 97 to 98): stat every
file of the tree with the get_contents rule of the owning root, recording
the result in the files dict and the call in the remote call log. -/
def stat_files (conn : Conn) (gc : Bool) :
    List String → List (String × StatRecord) → List RemoteCall →
    Except RemoteError (List (String × StatRecord) × List RemoteCall)
  | [], acc, log => .ok (acc, log)
  | i :: rest, acc, log =>
    match conn.stat_path i gc with
    | .error e => .error e
    | .ok r =>
      stat_files conn gc rest (dinsert i r acc) (log ++ [RemoteCall.stat_path i gc])

/-- The dirs loop of collect_paths (source lines 99 to 103): for every
directory i of the tree, stat i into the dirs dict under key i, and then,
still inside the loop, assign under the root key p the result of a second
stat of i: source line 103 stats i, not p. -/
def stat_dirs (conn : Conn) (p : String) :
    List String → List (String × StatRecord) → List RemoteCall →
    Except RemoteError (List (String × StatRecord) × List RemoteCall)
  | [], acc, log => .ok (acc, log)
  | i :: rest, acc, log =>
    match conn.stat_path i false with
    | .error e => .error e
    | .ok r₁ =>
      match conn.stat_path i false with
      | .error e => .error e
      | .ok r₂ =>
        stat_dirs conn p rest (dinsert p r₂ (dinsert i r₁ acc))
          (log ++ [RemoteCall.stat_path i false, RemoteCall.stat_path i false])

/-- The outer loop of collect_paths over the paths dictionary (source
lines 85 to 106): walk the root, stat the files, stat the dirs, and store
the per-root dicts under the root key in path_metadata. -/
def collect_roots (conn : Conn) :
    List (String × Rules) → List (String × RootMeta) → List RemoteCall →
    Except RemoteError (List (String × RootMeta) × List RemoteCall)
  | [], acc, log => .ok (acc, log)
  | (p, kw) :: rest, acc, log =>
    match conn.path_tree p kw.skip_dirs kw.skip_files kw.get_contents with
    | .error e => .error e
    | .ok tree =>
      match stat_files conn kw.get_contents tree.files []
          (log ++ [RemoteCall.path_tree p kw.skip_dirs kw.skip_files kw.get_contents]) with
      | .error e => .error e
      | .ok fl =>
        match stat_dirs conn p tree.dirs [] fl.2 with
        | .error e => .error e
        | .ok dl => collect_roots conn rest (dinsert p ⟨dl.1, fl.1⟩ acc) dl.2

/-- collect_paths (source lines 15 to 107): walk each path of interest,
stat the discovered files and dirs, and return the path_metadata dict for
one node, together with the ordered log of remote calls issued. -/
def collect_paths (conn : Conn) :
    Except RemoteError (List (String × RootMeta) × List RemoteCall) :=
  collect_roots conn paths [] []

/-- A node descriptor from the inventory: a dict carrying the host key. -/
structure Node where
  host : String
  deriving DecidableEq, Repr

/-- The role-grouped inventory read from the nodes key of the metadata:
role name to ordered node list. -/
abbrev Inventory := List (String × List Node)

/-- collect_network (source lines 183 to 188): an extension point that
currently returns an empty dict. -/
def collect_network (_cluster_nodes : Inventory) : List (String × Unit) := []

/-- collect_devices (source lines 193 to 197): an extension point that
currently returns an empty dict. -/
def collect_devices : List (String × Unit) := []

/-- The node_metadata dict assembled for one node by the collect loop
body (source lines 147 to 168). -/
structure NodeMeta where
  paths : List (String × RootMeta)
  network : List (String × Unit)
  devices : List (String × Unit)
  ceph_version : String
  ceph_installed : Bool
  deriving DecidableEq, Repr

/-- The process-wide metadata store restricted to the node entries the
collector writes: role name to host to node metadata.  The role dicts are
initialised empty outside the collector source, so the store starts empty
here and store_set creates a role entry on its first use. -/
abbrev Store := List (String × List (String × NodeMeta))

/-- The assignment metadata[node_type][host] = v on source line 172. -/
def store_set (role host : String) (v : NodeMeta) : Store → Store
  | [] => [(role, [(host, v)])]
  | (r, inner) :: rest =>
    if r = role then (r, dinsert host v inner) :: rest
    else (r, inner) :: store_set role host v rest

/-- Lookup of metadata[role][host]. -/
def store_get (role host : String) (s : Store) : Option NodeMeta :=
  match dget role s with
  | none => none
  | some inner => dget host inner

/-- Modelled from the spec: get_connection (ceph_medic.connection, not
under the collector source) either returns a channel for the host or
raises HostNotFound; the per-host outcome and the channel behaviour are
an oracle of the world the run executes in. -/
structure World where
  channel : String → Option Conn

/-- The fallible remote build steps of the collect loop body (source
lines 151, 166 and 168) together with the stub collectors (lines 157 and
162), composed: the result is the node metadata the body commits, or the
first remote exception the body raises. -/
def node_build (conn : Conn) (cluster_nodes : Inventory) :
    Except RemoteError NodeMeta :=
  match collect_paths conn with
  | .error e => .error e
  | .ok pr =>
    match conn.ceph_version with
    | .error e => .error e
    | .ok v =>
      match conn.ceph_is_installed with
      | .error e => .error e
      | .ok i => .ok ⟨pr.1, collect_network cluster_nodes, collect_devices, v, i⟩

/-- The mutable state of the collect loop: the store, the terminal events
written so far, and the total_nodes and failed_nodes counters. -/
structure LoopState where
  store : Store
  events : List Event
  total : Nat
  failed : Nat
  deriving DecidableEq, Repr

/-- Result of running part of the collect loop: either the loop finished
normally, or a remote exception escaped while processing host. -/
inductive StepResult where
  | ok (st : LoopState)
  | raised (st : LoopState) (host : String) (e : RemoteError)
  deriving DecidableEq, Repr

/-- The loop state carried by a step result. -/
def stepState : StepResult → LoopState
  | .ok st => st
  | .raised st _ _ => st

/-- The body of the collect loop for one node (source lines 124 to 173):
count the node, attempt the connection; on HostNotFound count the failure
and continue; otherwise run the build steps, writing one loader line
before and after each phase (the lines after the devices step and after
both ceph steps are labelled paths in the source), commit the node
metadata to the store and close the channel.  A failing remote call
escapes as StepResult.raised with the store unchanged and no closed
event. -/
def process_node (w : World) (cluster_nodes : Inventory) (node_type : String)
    (node : Node) (st : LoopState) : StepResult :=
  let hostname := node.host
  let ev₀ := st.events ++ [Event.connection hostname "connecting" Status.pending]
  match w.channel hostname with
  | none =>
    StepResult.ok ⟨st.store,
      ev₀ ++ [Event.connection hostname "failed" Status.failure],
      st.total + 1, st.failed + 1⟩
  | some conn =>
    let ev₁ := ev₀ ++ [Event.connection hostname "connected" Status.success]
    let ev₂ := ev₁ ++ [Event.collecting hostname "paths" Status.pending]
    match collect_paths conn with
    | .error e => StepResult.raised ⟨st.store, ev₂, st.total + 1, st.failed⟩ hostname e
    | .ok pr =>
      let ev₃ := ev₂ ++ [Event.collecting hostname "paths" Status.success,
        Event.collecting hostname "network" Status.pending]
      let network := collect_network cluster_nodes
      let ev₄ := ev₃ ++ [Event.collecting hostname "network" Status.success,
        Event.collecting hostname "devices" Status.pending]
      let devices := collect_devices
      let ev₅ := ev₄ ++ [Event.collecting hostname "paths" Status.success]
      match conn.ceph_version with
      | .error e => StepResult.raised ⟨st.store, ev₅, st.total + 1, st.failed⟩ hostname e
      | .ok version =>
        let ev₆ := ev₅ ++ [Event.collecting hostname "paths" Status.success]
        match conn.ceph_is_installed with
        | .error e => StepResult.raised ⟨st.store, ev₆, st.total + 1, st.failed⟩ hostname e
        | .ok installed =>
          let ev₇ := ev₆ ++ [Event.collecting hostname "paths" Status.success]
          StepResult.ok
            ⟨store_set node_type hostname ⟨pr.1, network, devices, version, installed⟩ st.store,
             ev₇ ++ [Event.committed node_type hostname, Event.closed hostname],
             st.total + 1, st.failed⟩

/-- The inner collect loop over the nodes of one role group. -/
def run_role (w : World) (cluster_nodes : Inventory) (node_type : String) :
    List Node → LoopState → StepResult
  | [], st => StepResult.ok st
  | n :: ns, st =>
    match process_node w cluster_nodes node_type n st with
    | StepResult.ok st₁ => run_role w cluster_nodes node_type ns st₁
    | r => r

/-- The outer collect loop over the items of cluster_nodes. -/
def run_groups (w : World) (cluster_nodes : Inventory) :
    Inventory → LoopState → StepResult
  | [], st => StepResult.ok st
  | (node_type, ns) :: rest, st =>
    match run_role w cluster_nodes node_type ns st with
    | StepResult.ok st₁ => run_groups w cluster_nodes rest st₁
    | r => r

/-- How collect terminates: normal completion (source line 178), the
RuntimeError raised when the failed count equals the total count (line
176), or a remote exception of a build step escaping the function, which
has no handler for it. -/
inductive Outcome where
  | completed
  | allNodesFailed
  | buildError (host : String) (e : RemoteError)
  deriving DecidableEq, Repr

/-- The observable result of one collect run: how it terminated, the
store contents it leaves behind, and the terminal events it wrote. -/
structure CollectResult where
  outcome : Outcome
  store : Store
  events : List Event
  deriving DecidableEq, Repr

/-- collect (source lines 110 to 178) run against an inventory and a
world of per-host channels: iterate every node of every role group,
then fail fatally when every node failed to connect and complete
otherwise.  An exception escaping the loop leaves the already committed
store contents behind. -/
def collect (w : World) (inventory : Inventory) : CollectResult :=
  match run_groups w inventory inventory ⟨[], [], 0, 0⟩ with
  | StepResult.raised st host e => ⟨Outcome.buildError host e, st.store, st.events⟩
  | StepResult.ok st =>
    if st.failed = st.total then ⟨Outcome.allNodesFailed, st.store, st.events⟩
    else ⟨Outcome.completed, st.store, st.events⟩

/-- Modelled from the spec: stat_path of the remote functions module (not
under the collector source) returns the stat record of the path and
attaches the captured contents exactly when get_contents is true (spec
section 4.3).  The record also carries the flag the call received. -/
def stat_path_model (fs : String → Option String) (path : String) (gc : Bool) :
    StatRecord :=
  ⟨path, gc, if gc then fs path else none⟩

/-- A channel whose remote operations all succeed, built from an
arbitrary stat function sf and an arbitrary walker tf. -/
def pureConn (sf : String → Bool → StatRecord)
    (tf : String → Option (List String) → Option (List String) → Bool → Tree) :
    Conn :=
  ⟨fun p sd skf gc => .ok (tf p sd skf gc),
   fun p gc => .ok (sf p gc),
   .ok "ceph version 14.2.0", .ok true⟩

/-- The walker calls of a remote call log, in order, with their
arguments. -/
def walkCalls :
    List RemoteCall → List (String × Option (List String) × Option (List String) × Bool)
  | [] => []
  | RemoteCall.path_tree p sd sf gc :: rest => (p, sd, sf, gc) :: walkCalls rest
  | RemoteCall.stat_path _ _ :: rest => walkCalls rest

/-- Whether an Except value is a success. -/
def isOkE {α : Type} : Except RemoteError α → Bool
  | .ok _ => true
  | .error _ => false

/-- Number of nodes in an inventory. -/
def countNodesG : Inventory → Nat
  | [] => 0
  | (_, ns) :: rest => ns.length + countNodesG rest

/-- Nodes of one role list whose channel fails to open. -/
def countFailedL (w : World) (ns : List Node) : Nat :=
  (ns.filter (fun n => (w.channel n.host).isNone)).length

/-- Nodes of an inventory whose channel fails to open. -/
def countFailedG (w : World) : Inventory → Nat
  | [] => 0
  | (_, ns) :: rest => countFailedL w ns + countFailedG w rest

/-- A walker returning an empty tree for every root. -/
def emptyTf : String → Option (List String) → Option (List String) → Bool → Tree :=
  fun _ _ _ _ => ⟨[], []⟩

/-- A filesystem with no readable contents. -/
def noFs : String → Option String := fun _ => none

/-- A fully healthy channel over an empty filesystem. -/
def goodConn : Conn := pureConn (stat_path_model noFs) emptyTf

/-- A channel that connects and walks but whose ceph version query
raises. -/
def badConn : Conn :=
  ⟨fun p sd sf gc => .ok (emptyTf p sd sf gc),
   fun p gc => .ok (stat_path_model noFs p gc),
   .error (RemoteError.remoteCallError "ceph --version failed"),
   .ok true⟩

/-- The loader lines written for one fully successful node, in order:
connection yellow and green, then the per-phase lines of source lines 150
to 169 (the lines after the devices step and after the two ceph steps
carry the label paths in the source), then the commit and the channel
close. -/
def success_events (t h : String) : List Event :=
  [Event.connection h "connecting" Status.pending,
   Event.connection h "connected" Status.success,
   Event.collecting h "paths" Status.pending,
   Event.collecting h "paths" Status.success,
   Event.collecting h "network" Status.pending,
   Event.collecting h "network" Status.success,
   Event.collecting h "devices" Status.pending,
   Event.collecting h "paths" Status.success,
   Event.collecting h "paths" Status.success,
   Event.collecting h "paths" Status.success,
   Event.committed t h,
   Event.closed h]

/-- The two stat calls the dirs loop issues per directory entry. -/
def dirStatCalls : List String → List RemoteCall
  | [] => []
  | i :: rest =>
    RemoteCall.stat_path i false :: RemoteCall.stat_path i false :: dirStatCalls rest

/-- The remote calls collect_paths issues for one root when every call
succeeds: the walk, then one stat per file, then two stats per dir. -/
def rootCalls (tf : String → Option (List String) → Option (List String) → Bool → Tree)
    (p : String) (kw : Rules) : List RemoteCall :=
  RemoteCall.path_tree p kw.skip_dirs kw.skip_files kw.get_contents ::
    ((tf p kw.skip_dirs kw.skip_files kw.get_contents).files.map
        (fun i => RemoteCall.stat_path i kw.get_contents) ++
      dirStatCalls (tf p kw.skip_dirs kw.skip_files kw.get_contents).dirs)

/-- The remote calls collect_paths issues over a rule list when every
call succeeds. -/
def cfgCalls (tf : String → Option (List String) → Option (List String) → Bool → Tree) :
    List (String × Rules) → List RemoteCall
  | [] => []
  | (p, kw) :: rest => rootCalls tf p kw ++ cfgCalls tf rest

/-- The per-root dicts collect_paths builds for one root over a healthy
channel, as direct folds over the walker result. -/
def rootMetaPure (sf : String → Bool → StatRecord)
    (tf : String → Option (List String) → Option (List String) → Bool → Tree)
    (p : String) (kw : Rules) : RootMeta :=
  ⟨(tf p kw.skip_dirs kw.skip_files kw.get_contents).dirs.foldl
      (fun a i => dinsert p (sf i false) (dinsert i (sf i false) a)) [],
   (tf p kw.skip_dirs kw.skip_files kw.get_contents).files.foldl
      (fun a i => dinsert i (sf i kw.get_contents) a) []⟩

/-- A walker for which the configuration root has two subdirectories and
the run-state root has none. -/
def tfBug : String → Option (List String) → Option (List String) → Bool → Tree :=
  fun p _ _ _ =>
    if p = "/etc/ceph" then ⟨[], ["/etc/ceph/d1", "/etc/ceph/d2"]⟩ else ⟨[], []⟩

/-- A healthy channel over the tfBug walker. -/
def bugConn : Conn := pureConn (stat_path_model noFs) tfBug

/-- The path_metadata produced by collect_paths over bugConn. -/
def bugPm : List (String × RootMeta) :=
  match collect_paths bugConn with
  | .ok pr => pr.1
  | .error _ => []

/-- A filesystem on which every path has readable contents. -/
def fullFs : String → Option String := fun _ => some "[osd] data"

/-- A walker for which the run-state root holds one file and one
subdirectory and the other roots are empty. -/
def tfRun : String → Option (List String) → Option (List String) → Bool → Tree :=
  fun p _ _ _ =>
    if p = "/var/run/ceph" then ⟨["/var/run/ceph/osd.asok"], ["/var/run/ceph/sub"]⟩
    else ⟨[], []⟩

/-- collect_paths over a healthy channel on fullFs and tfRun. -/
def cpRun : Except RemoteError (List (String × RootMeta) × List RemoteCall) :=
  collect_paths (pureConn (stat_path_model fullFs) tfRun)

/-- The path_metadata of cpRun. -/
def pmRun : List (String × RootMeta) :=
  match cpRun with
  | .ok pr => pr.1
  | .error _ => []

/-- The call log of cpRun. -/
def logRun : List RemoteCall :=
  match cpRun with
  | .ok pr => pr.2
  | .error _ => []

/-- The per-root dicts of the run-state root in pmRun. -/
def rmRun : RootMeta := (dget "/var/run/ceph" pmRun).getD ⟨[], []⟩

/-- A world in which no host is reachable. -/
def wNone : World := ⟨fun _ => none⟩

/-- A world with a healthy mon0 and a mon1 whose version query raises. -/
def wMixed : World :=
  ⟨fun h => if h = "mon0" then some goodConn else
    if h = "mon1" then some badConn else none⟩

/-- The two-mon inventory used against wMixed. -/
def invMixed : Inventory := [("mons", [⟨"mon0"⟩, ⟨"mon1"⟩])]

/-- A world with a failing mon0 and a healthy mon1. -/
def wBadFirst : World :=
  ⟨fun h => if h = "mon0" then some badConn else
    if h = "mon1" then some goodConn else none⟩

/-- A world in which only mon0 is reachable, and healthy. -/
def wGoodOnly : World := ⟨fun h => if h = "mon0" then some goodConn else none⟩

/-- The inventory of one reachable mon0 and one unreachable monX. -/
def invGoodX : Inventory := [("mons", [⟨"mon0"⟩, ⟨"monX"⟩])]

/-- The single-node mon0 inventory. -/
def invMon0 : Inventory := [("mons", [⟨"mon0"⟩])]

/-- The result of a fully successful single-node run. -/
def resMon0 : CollectResult := collect wGoodOnly invMon0

/-- A node metadata value used as a pre-committed store entry. -/
def metaA : NodeMeta := ⟨[], [], [], "ceph version 14.2.0", true⟩

/-- A loop state holding one committed entry for host monA. -/
def stA : LoopState := ⟨[("mons", [("monA", metaA)])], [], 1, 0⟩

/-- The loop state reached in the mixed world after mon0 is processed
successfully: mon0 committed to the store, one node counted, none
failed. -/
def stAfterMon0 : LoopState :=
  stepState (process_node wMixed invMixed "mons" ⟨"mon0"⟩ ⟨[], [], 0, 0⟩)

theorem dget_dinsert_self {α : Type} (k : String) (v : α) (l : List (String × α)) :
    dget k (dinsert k v l) = some v := by
  induction l with
  | nil => simp [dinsert, dget]
  | cons hd tl ih =>
    obtain ⟨k₁, v₁⟩ := hd
    by_cases h : k₁ = k
    · simp [dinsert, dget, h]
    · simp [dinsert, dget, h, ih]

theorem dget_dinsert_ne {α : Type} (k k' : String) (v : α) (l : List (String × α))
    (hk : k ≠ k') : dget k (dinsert k' v l) = dget k l := by
  have hk' : k' ≠ k := fun hc => hk hc.symm
  induction l with
  | nil => simp [dinsert, dget, hk']
  | cons hd tl ih =>
    obtain ⟨k₁, v₁⟩ := hd
    by_cases h₁ : k₁ = k'
    · subst h₁
      simp [dinsert, dget, hk']
    · by_cases h₂ : k₁ = k
      · subst h₂
        simp [dinsert, dget, h₁]
      · simp [dinsert, dget, h₁, h₂, ih]

theorem mem_dinsert {α : Type} (k : String) (v : α) (l : List (String × α))
    (x : String × α) (hx : x ∈ dinsert k v l) : x = (k, v) ∨ x ∈ l := by
  induction l with
  | nil => simpa [dinsert] using hx
  | cons hd tl ih =>
    obtain ⟨k₁, v₁⟩ := hd
    by_cases h : k₁ = k
    · rw [show dinsert k v ((k₁, v₁) :: tl) = (k, v) :: tl by simp [dinsert, h]] at hx
      rcases List.mem_cons.mp hx with h₁ | h₁
      · exact Or.inl h₁
      · exact Or.inr (List.mem_cons_of_mem _ h₁)
    · rw [show dinsert k v ((k₁, v₁) :: tl) = (k₁, v₁) :: dinsert k v tl by
        simp [dinsert, h]] at hx
      rcases List.mem_cons.mp hx with h₁ | h₁
      · exact Or.inr (by simp [h₁])
      · rcases ih h₁ with h₂ | h₂
        · exact Or.inl h₂
        · exact Or.inr (List.mem_cons_of_mem _ h₂)

theorem dget_store_set_self (r h : String) (v : NodeMeta) (s : Store) :
    dget r (store_set r h v s) = some (dinsert h v ((dget r s).getD [])) := by
  induction s with
  | nil => simp [store_set, dget, dinsert]
  | cons hd tl ih =>
    obtain ⟨r₁, inner⟩ := hd
    by_cases h₁ : r₁ = r
    · subst h₁
      simp [store_set, dget]
    · simp [store_set, dget, h₁, ih]

theorem dget_store_set_ne (r r' h : String) (v : NodeMeta) (s : Store)
    (hr : r ≠ r') : dget r (store_set r' h v s) = dget r s := by
  have hr' : r' ≠ r := fun hc => hr hc.symm
  induction s with
  | nil => simp [store_set, dget, hr']
  | cons hd tl ih =>
    obtain ⟨r₁, inner⟩ := hd
    by_cases h₁ : r₁ = r'
    · subst h₁
      simp [store_set, dget, hr']
    · by_cases h₂ : r₁ = r
      · subst h₂
        simp [store_set, dget, h₁]
      · simp [store_set, dget, h₁, h₂, ih]

theorem store_get_set_self (r h : String) (v : NodeMeta) (s : Store) :
    store_get r h (store_set r h v s) = some v := by
  simp [store_get, dget_store_set_self, dget_dinsert_self]

theorem store_get_set_ne_role (r r' h h' : String) (v : NodeMeta) (s : Store)
    (hr : r ≠ r') : store_get r h (store_set r' h' v s) = store_get r h s := by
  simp [store_get, dget_store_set_ne r r' h' v s hr]

theorem store_get_set_ne_host (r r' h h' : String) (v : NodeMeta) (s : Store)
    (hh : h ≠ h') : store_get r h (store_set r' h' v s) = store_get r h s := by
  by_cases hr : r = r'
  · subst hr
    have hmain : store_get r h (store_set r h' v s) =
        dget h (dinsert h' v ((dget r s).getD [])) := by
      simp [store_get, dget_store_set_self]
    rw [hmain, dget_dinsert_ne h h' v _ hh]
    cases hd : dget r s with
    | none => simp [store_get, hd, dget]
    | some inner => simp [store_get, hd]
  · exact store_get_set_ne_role r r' h h' v s hr

theorem store_get_set_isSome_mono (r r' h h' : String) (v : NodeMeta) (s : Store)
    (hs : (store_get r h s).isSome = true) :
    (store_get r h (store_set r' h' v s)).isSome = true := by
  by_cases hh : h = h'
  · by_cases hr : r = r'
    · subst hh; subst hr
      simp [store_get_set_self]
    · rw [store_get_set_ne_role r r' h h' v s hr]
      exact hs
  · rw [store_get_set_ne_host r r' h h' v s hh]
    exact hs

theorem pureConn_stat_path (sf : String → Bool → StatRecord)
    (tf : String → Option (List String) → Option (List String) → Bool → Tree)
    (p : String) (gc : Bool) :
    (pureConn sf tf).stat_path p gc = .ok (sf p gc) := rfl

theorem pureConn_path_tree (sf : String → Bool → StatRecord)
    (tf : String → Option (List String) → Option (List String) → Bool → Tree)
    (p : String) (sd skf : Option (List String)) (gc : Bool) :
    (pureConn sf tf).path_tree p sd skf gc = .ok (tf p sd skf gc) := rfl

theorem stat_files_pure (sf : String → Bool → StatRecord)
    (tf : String → Option (List String) → Option (List String) → Bool → Tree)
    (gc : Bool) :
    ∀ (xs : List String) (acc : List (String × StatRecord)) (log : List RemoteCall),
    stat_files (pureConn sf tf) gc xs acc log =
      .ok (xs.foldl (fun a i => dinsert i (sf i gc) a) acc,
        log ++ xs.map (fun i => RemoteCall.stat_path i gc)) := by
  intro xs
  induction xs with
  | nil => intro acc log; simp [stat_files]
  | cons i rest ih =>
    intro acc log
    simp [stat_files, pureConn_stat_path, ih]

theorem stat_dirs_pure (sf : String → Bool → StatRecord)
    (tf : String → Option (List String) → Option (List String) → Bool → Tree)
    (p : String) :
    ∀ (xs : List String) (acc : List (String × StatRecord)) (log : List RemoteCall),
    stat_dirs (pureConn sf tf) p xs acc log =
      .ok (xs.foldl (fun a i => dinsert p (sf i false) (dinsert i (sf i false) a)) acc,
        log ++ dirStatCalls xs) := by
  intro xs
  induction xs with
  | nil => intro acc log; simp [stat_dirs, dirStatCalls]
  | cons i rest ih =>
    intro acc log
    simp [stat_dirs, pureConn_stat_path, ih, dirStatCalls]

theorem collect_roots_pure (sf : String → Bool → StatRecord)
    (tf : String → Option (List String) → Option (List String) → Bool → Tree) :
    ∀ (cfg : List (String × Rules)) (acc : List (String × RootMeta))
      (log : List RemoteCall),
    collect_roots (pureConn sf tf) cfg acc log =
      .ok (cfg.foldl (fun a pkw => dinsert pkw.1 (rootMetaPure sf tf pkw.1 pkw.2) a) acc,
        log ++ cfgCalls tf cfg) := by
  intro cfg
  induction cfg with
  | nil => intro acc log; simp [collect_roots, cfgCalls]
  | cons pkw rest ih =>
    intro acc log
    obtain ⟨p, kw⟩ := pkw
    rw [show collect_roots (pureConn sf tf) ((p, kw) :: rest) acc log =
        collect_roots (pureConn sf tf) rest
          (dinsert p (rootMetaPure sf tf p kw) acc) (log ++ rootCalls tf p kw) by
      simp only [collect_roots, pureConn_path_tree, stat_files_pure sf tf,
        stat_dirs_pure sf tf, rootMetaPure, rootCalls]
      simp [List.append_assoc]]
    rw [ih]
    simp [cfgCalls, List.append_assoc]

theorem collect_paths_pure (sf : String → Bool → StatRecord)
    (tf : String → Option (List String) → Option (List String) → Bool → Tree) :
    collect_paths (pureConn sf tf) =
      .ok (paths.foldl (fun a pkw => dinsert pkw.1 (rootMetaPure sf tf pkw.1 pkw.2) a) [],
        cfgCalls tf paths) := by
  simpa using collect_roots_pure sf tf paths [] []

theorem walkCalls_append (a b : List RemoteCall) :
    walkCalls (a ++ b) = walkCalls a ++ walkCalls b := by
  induction a with
  | nil => simp [walkCalls]
  | cons c rest ih =>
    cases c with
    | path_tree p sd sf gc => simp [walkCalls, ih]
    | stat_path p gc => simp [walkCalls, ih]

theorem walkCalls_map_stat (xs : List String) (gc : Bool) :
    walkCalls (xs.map (fun i => RemoteCall.stat_path i gc)) = [] := by
  induction xs with
  | nil => simp [walkCalls]
  | cons i rest ih => simp [walkCalls, ih]

theorem walkCalls_dirStatCalls (xs : List String) :
    walkCalls (dirStatCalls xs) = [] := by
  induction xs with
  | nil => simp [dirStatCalls, walkCalls]
  | cons i rest ih => simp [dirStatCalls, walkCalls, ih]

theorem walkCalls_cfgCalls
    (tf : String → Option (List String) → Option (List String) → Bool → Tree)
    (cfg : List (String × Rules)) :
    walkCalls (cfgCalls tf cfg) =
      cfg.map (fun pkw => (pkw.1, pkw.2.skip_dirs, pkw.2.skip_files, pkw.2.get_contents)) := by
  induction cfg with
  | nil => simp [cfgCalls, walkCalls]
  | cons pkw rest ih =>
    obtain ⟨p, kw⟩ := pkw
    simp [cfgCalls, rootCalls, walkCalls_append, walkCalls, walkCalls_map_stat,
      walkCalls_dirStatCalls, ih]

theorem dirs_fold_flag (fs : String → Option String) (p : String) :
    ∀ (xs : List String) (acc : List (String × StatRecord)),
    (∀ pr ∈ acc, pr.2.flag = false) →
    ∀ pr ∈ xs.foldl
        (fun a i => dinsert p (stat_path_model fs i false)
          (dinsert i (stat_path_model fs i false) a)) acc,
      pr.2.flag = false := by
  intro xs
  induction xs with
  | nil => intro acc hacc pr hpr; exact hacc pr hpr
  | cons i rest ih =>
    intro acc hacc pr hpr
    rw [List.foldl_cons] at hpr
    refine ih _ ?_ pr hpr
    intro x hx
    rcases mem_dinsert _ _ _ x hx with h₁ | h₁
    · rw [h₁]; rfl
    · rcases mem_dinsert _ _ _ x h₁ with h₂ | h₂
      · rw [h₂]; rfl
      · exact hacc x h₂

theorem files_fold_flag (fs : String → Option String) (gc : Bool) :
    ∀ (xs : List String) (acc : List (String × StatRecord)),
    (∀ pr ∈ acc, pr.2.flag = gc ∧ (gc = false → pr.2.contents = none)) →
    ∀ pr ∈ xs.foldl (fun a i => dinsert i (stat_path_model fs i gc) a) acc,
      pr.2.flag = gc ∧ (gc = false → pr.2.contents = none) := by
  intro xs
  induction xs with
  | nil => intro acc hacc pr hpr; exact hacc pr hpr
  | cons i rest ih =>
    intro acc hacc pr hpr
    rw [List.foldl_cons] at hpr
    refine ih _ ?_ pr hpr
    intro x hx
    rcases mem_dinsert _ _ _ x hx with h₁ | h₁
    · rw [h₁]
      refine ⟨rfl, ?_⟩
      intro hgc
      subst hgc
      rfl
    · exact hacc x h₁

theorem rootMetaPure_props (fs : String → Option String)
    (tf : String → Option (List String) → Option (List String) → Bool → Tree)
    (p : String) (kw : Rules) :
    (∀ pr ∈ (rootMetaPure (stat_path_model fs) tf p kw).dirs, pr.2.flag = false) ∧
    (∀ pr ∈ (rootMetaPure (stat_path_model fs) tf p kw).files,
      pr.2.flag = kw.get_contents ∧ (kw.get_contents = false → pr.2.contents = none)) := by
  constructor
  · exact dirs_fold_flag fs p _ [] (by simp)
  · exact files_fold_flag fs kw.get_contents _ [] (by simp)

/-- C6: every directory entry, the root-self entry included, is statted
with the content-capture flag false; every file entry is statted with the
get_contents rule of its owning root; and a file under a root whose rule
has get_contents false carries no contents in its record.  The stat
behaviour itself is the spec-modelled stat_path_model; the flags are the
ones collect_paths passes. -/
theorem stat_flags_follow_rules (fs : String → Option String)
    (tf : String → Option (List String) → Option (List String) → Bool → Tree)
    (p : String) (kw : Rules) (pm : List (String × RootMeta))
    (log : List RemoteCall) (rm : RootMeta)
    (hrun : collect_paths (pureConn (stat_path_model fs) tf) = .ok (pm, log))
    (hkw : (p, kw) ∈ paths)
    (hrm : dget p pm = some rm) :
    (∀ pr ∈ rm.dirs, pr.2.flag = false) ∧
    (∀ pr ∈ rm.files, pr.2.flag = kw.get_contents ∧
      (kw.get_contents = false → pr.2.contents = none)) := by
  have hpm : pm = paths.foldl
      (fun a pkw => dinsert pkw.1 (rootMetaPure (stat_path_model fs) tf pkw.1 pkw.2) a) [] := by
    rw [collect_paths_pure] at hrun
    injection hrun with h
    exact (congrArg Prod.fst h).symm
  subst hpm
  simp only [paths, List.mem_cons, List.not_mem_nil, or_false, Prod.mk.injEq] at hkw
  rcases hkw with ⟨hp, hkw⟩ | ⟨hp, hkw⟩ | ⟨hp, hkw⟩ <;> subst hp <;> subst hkw <;>
    simp only [paths, List.foldl, dinsert, dget] at hrm <;>
    simp only [show (("/etc/ceph" : String) = "/var/lib/ceph") = False by simp,
      show (("/etc/ceph" : String) = "/var/run/ceph") = False by simp,
      show (("/var/lib/ceph" : String) = "/var/run/ceph") = False by simp,
      show (("/var/lib/ceph" : String) = "/etc/ceph") = False by simp,
      show (("/var/run/ceph" : String) = "/etc/ceph") = False by simp,
      show (("/var/run/ceph" : String) = "/var/lib/ceph") = False by simp,
      if_true, if_false, reduceIte, dget, Option.some.injEq] at hrm <;>
    exact hrm ▸ rootMetaPure_props fs tf _ _

/-- C6 witness: the theorem applied to a healthy channel on a concrete
walker whose run-state root (get_contents false) carries one file and one
subdirectory. -/
theorem stat_flags_follow_rules_witness :
    (∀ pr ∈ rmRun.dirs, pr.2.flag = false) ∧
    (∀ pr ∈ rmRun.files, pr.2.flag = false ∧ (false = false → pr.2.contents = none)) := by
  exact stat_flags_follow_rules fullFs tfRun "/var/run/ceph" ⟨none, none, false⟩
    pmRun logRun rmRun rfl (by decide) rfl

/-- C7: the path-of-interest configuration is exactly the three fixed
roots with their independent rules, and on any run in which every remote
call succeeds, collect_paths invokes the walker exactly once per root, in
the defined order, passing exactly that root's skip and capture rules. -/
theorem paths_fixed_and_walk_order :
    paths = [("/etc/ceph", ⟨none, none, true⟩),
      ("/var/lib/ceph",
        ⟨some ["current", "store.db"], some ["activate.monmap", "superblock"], true⟩),
      ("/var/run/ceph", ⟨none, none, false⟩)] ∧
    ∀ (sf : String → Bool → StatRecord)
      (tf : String → Option (List String) → Option (List String) → Bool → Tree)
      (pm : List (String × RootMeta)) (log : List RemoteCall),
      collect_paths (pureConn sf tf) = .ok (pm, log) →
      walkCalls log =
        [("/etc/ceph", none, none, true),
         ("/var/lib/ceph",
           some ["current", "store.db"], some ["activate.monmap", "superblock"], true),
         ("/var/run/ceph", none, none, false)] := by
  refine ⟨rfl, ?_⟩
  intro sf tf pm log hrun
  have hlog : log = cfgCalls tf paths := by
    rw [collect_paths_pure] at hrun
    injection hrun with h
    exact (congrArg Prod.snd h).symm
  subst hlog
  rw [walkCalls_cfgCalls]
  rfl

/-- C7 witness: the theorem applied to the concrete tfRun walker run. -/
theorem paths_fixed_and_walk_order_witness :
    walkCalls logRun =
      [("/etc/ceph", none, none, true),
       ("/var/lib/ceph",
         some ["current", "store.db"], some ["activate.monmap", "superblock"], true),
       ("/var/run/ceph", none, none, false)] := by
  exact paths_fixed_and_walk_order.2 (stat_path_model fullFs) tfRun pmRun logRun rfl

/-- C5 (code bug): the root-self entry of the dirs mapping.  On a walk of
the configuration root that returns two subdirectories, the entry keyed
by the root holds the stat record of the last walked subdirectory (source
line 103 stats the loop variable i, not the root p), and on a root whose
walk returns no directories there is no root-self entry at all, against
the stated once-per-root root-stat behaviour. -/
theorem root_self_entry_bug :
    (dget "/etc/ceph" bugPm).map (fun rm => dget "/etc/ceph" rm.dirs) =
      some (some ⟨"/etc/ceph/d2", false, none⟩) ∧
    (dget "/var/run/ceph" bugPm).map (fun rm => dget "/var/run/ceph" rm.dirs) =
      some none := by
  decide

theorem process_node_unreachable (w : World) (cn : Inventory) (t : String)
    (n : Node) (st : LoopState) (hc : w.channel n.host = none) :
    process_node w cn t n st =
      StepResult.ok ⟨st.store,
        st.events ++ [Event.connection n.host "connecting" Status.pending,
          Event.connection n.host "failed" Status.failure],
        st.total + 1, st.failed + 1⟩ := by
  simp [process_node, hc]

theorem process_node_success (w : World) (cn : Inventory) (t : String)
    (n : Node) (st : LoopState) (conn : Conn) (m : NodeMeta)
    (hc : w.channel n.host = some conn) (hb : node_build conn cn = Except.ok m) :
    process_node w cn t n st =
      StepResult.ok ⟨store_set t n.host m st.store,
        st.events ++ success_events t n.host, st.total + 1, st.failed⟩ := by
  cases hcp : collect_paths conn with
  | error e => simp [node_build, hcp] at hb
  | ok pr =>
    cases hv : conn.ceph_version with
    | error e => simp [node_build, hcp, hv] at hb
    | ok v =>
      cases hi : conn.ceph_is_installed with
      | error e => simp [node_build, hcp, hv, hi] at hb
      | ok i =>
        simp only [node_build, hcp, hv, hi, Except.ok.injEq] at hb
        subst hb
        simp [process_node, hc, hcp, hv, hi, success_events]

theorem process_node_raised (w : World) (cn : Inventory) (t : String)
    (n : Node) (st : LoopState) (conn : Conn) (e : RemoteError)
    (hc : w.channel n.host = some conn) (hb : node_build conn cn = Except.error e) :
    ∃ evs : List Event,
      process_node w cn t n st =
        StepResult.raised ⟨st.store, st.events ++ evs, st.total + 1, st.failed⟩ n.host e ∧
      Event.closed n.host ∉ evs := by
  cases hcp : collect_paths conn with
  | error e' =>
    have he : e' = e := by simpa [node_build, hcp] using hb
    subst he
    refine ⟨[Event.connection n.host "connecting" Status.pending,
      Event.connection n.host "connected" Status.success,
      Event.collecting n.host "paths" Status.pending], ?_, by simp⟩
    simp [process_node, hc, hcp]
  | ok pr =>
    cases hv : conn.ceph_version with
    | error e' =>
      have he : e' = e := by simpa [node_build, hcp, hv] using hb
      subst he
      refine ⟨[Event.connection n.host "connecting" Status.pending,
        Event.connection n.host "connected" Status.success,
        Event.collecting n.host "paths" Status.pending,
        Event.collecting n.host "paths" Status.success,
        Event.collecting n.host "network" Status.pending,
        Event.collecting n.host "network" Status.success,
        Event.collecting n.host "devices" Status.pending,
        Event.collecting n.host "paths" Status.success], ?_, by simp⟩
      simp [process_node, hc, hcp, hv]
    | ok v =>
      cases hi : conn.ceph_is_installed with
      | error e' =>
        have he : e' = e := by simpa [node_build, hcp, hv, hi] using hb
        subst he
        refine ⟨[Event.connection n.host "connecting" Status.pending,
          Event.connection n.host "connected" Status.success,
          Event.collecting n.host "paths" Status.pending,
          Event.collecting n.host "paths" Status.success,
          Event.collecting n.host "network" Status.pending,
          Event.collecting n.host "network" Status.success,
          Event.collecting n.host "devices" Status.pending,
          Event.collecting n.host "paths" Status.success,
          Event.collecting n.host "paths" Status.success], ?_, by simp⟩
        simp [process_node, hc, hcp, hv, hi]
      | ok i => simp [node_build, hcp, hv, hi] at hb

theorem process_node_store_mono (w : World) (cn : Inventory) (t : String)
    (n : Node) (st : LoopState) (r h : String)
    (hs : (store_get r h st.store).isSome = true) :
    (store_get r h (stepState (process_node w cn t n st)).store).isSome = true := by
  cases hc : w.channel n.host with
  | none =>
    rw [process_node_unreachable w cn t n st hc]
    simpa [stepState] using hs
  | some conn =>
    cases hb : node_build conn cn with
    | ok m =>
      rw [process_node_success w cn t n st conn m hc hb]
      simpa [stepState] using store_get_set_isSome_mono r t h n.host m st.store hs
    | error e =>
      obtain ⟨evs, hpn, hcl⟩ := process_node_raised w cn t n st conn e hc hb
      rw [hpn]
      simpa [stepState] using hs

theorem process_node_absent (w : World) (cn : Inventory) (t : String)
    (n : Node) (st : LoopState) (r h : String)
    (hch : w.channel h = none) (hs : store_get r h st.store = none) :
    store_get r h (stepState (process_node w cn t n st)).store = none := by
  cases hc : w.channel n.host with
  | none =>
    rw [process_node_unreachable w cn t n st hc]
    simpa [stepState] using hs
  | some conn =>
    have hne : h ≠ n.host := by
      intro hcontra
      rw [hcontra, hc] at hch
      cases hch
    cases hb : node_build conn cn with
    | ok m =>
      rw [process_node_success w cn t n st conn m hc hb]
      simp only [stepState]
      rw [store_get_set_ne_host r t h n.host m st.store hne]
      exact hs
    | error e =>
      obtain ⟨evs, hpn, hcl⟩ := process_node_raised w cn t n st conn e hc hb
      rw [hpn]
      simpa [stepState] using hs

theorem run_role_store_mono (w : World) (cn : Inventory) (t : String) :
    ∀ (ns : List Node) (st : LoopState) (r h : String),
    (store_get r h st.store).isSome = true →
    (store_get r h (stepState (run_role w cn t ns st)).store).isSome = true := by
  intro ns
  induction ns with
  | nil =>
    intro st r h hs
    simpa [run_role, stepState] using hs
  | cons n ns ih =>
    intro st r h hs
    have hstep := process_node_store_mono w cn t n st r h hs
    cases hp : process_node w cn t n st with
    | ok st₁ =>
      rw [hp] at hstep
      simp only [run_role, hp]
      exact ih st₁ r h (by simpa [stepState] using hstep)
    | raised st₁ host e =>
      rw [hp] at hstep
      simp only [run_role, hp]
      simpa [stepState] using hstep

theorem run_groups_store_mono (w : World) (cn : Inventory) :
    ∀ (gs : Inventory) (st : LoopState) (r h : String),
    (store_get r h st.store).isSome = true →
    (store_get r h (stepState (run_groups w cn gs st)).store).isSome = true := by
  intro gs
  induction gs with
  | nil =>
    intro st r h hs
    simpa [run_groups, stepState] using hs
  | cons g rest ih =>
    obtain ⟨t, ns⟩ := g
    intro st r h hs
    have hstep := run_role_store_mono w cn t ns st r h hs
    cases hp : run_role w cn t ns st with
    | ok st₁ =>
      rw [hp] at hstep
      simp only [run_groups, hp]
      exact ih st₁ r h (by simpa [stepState] using hstep)
    | raised st₁ host e =>
      rw [hp] at hstep
      simp only [run_groups, hp]
      simpa [stepState] using hstep

theorem run_role_absent (w : World) (cn : Inventory) (t : String) :
    ∀ (ns : List Node) (st : LoopState) (r h : String),
    w.channel h = none → store_get r h st.store = none →
    store_get r h (stepState (run_role w cn t ns st)).store = none := by
  intro ns
  induction ns with
  | nil =>
    intro st r h hch hs
    simpa [run_role, stepState] using hs
  | cons n ns ih =>
    intro st r h hch hs
    have hstep := process_node_absent w cn t n st r h hch hs
    cases hp : process_node w cn t n st with
    | ok st₁ =>
      rw [hp] at hstep
      simp only [run_role, hp]
      exact ih st₁ r h hch (by simpa [stepState] using hstep)
    | raised st₁ host e =>
      rw [hp] at hstep
      simp only [run_role, hp]
      simpa [stepState] using hstep

theorem run_groups_absent (w : World) (cn : Inventory) :
    ∀ (gs : Inventory) (st : LoopState) (r h : String),
    w.channel h = none → store_get r h st.store = none →
    store_get r h (stepState (run_groups w cn gs st)).store = none := by
  intro gs
  induction gs with
  | nil =>
    intro st r h hch hs
    simpa [run_groups, stepState] using hs
  | cons g rest ih =>
    obtain ⟨t, ns⟩ := g
    intro st r h hch hs
    have hstep := run_role_absent w cn t ns st r h hch hs
    cases hp : run_role w cn t ns st with
    | ok st₁ =>
      rw [hp] at hstep
      simp only [run_groups, hp]
      exact ih st₁ r h hch (by simpa [stepState] using hstep)
    | raised st₁ host e =>
      rw [hp] at hstep
      simp only [run_groups, hp]
      simpa [stepState] using hstep

theorem countFailedL_cons (w : World) (n : Node) (ns : List Node) :
    countFailedL w (n :: ns) =
      (if (w.channel n.host).isNone = true then 1 else 0) + countFailedL w ns := by
  simp only [countFailedL, List.filter_cons]
  split
  · simp [Nat.add_comm]
  · simp

theorem countFailedL_le (w : World) (ns : List Node) : countFailedL w ns ≤ ns.length :=
  List.length_filter_le _ _

theorem countFailedG_le (w : World) (gs : Inventory) :
    countFailedG w gs ≤ countNodesG gs := by
  induction gs with
  | nil => simp [countFailedG, countNodesG]
  | cons g rest ih =>
    obtain ⟨t, ns⟩ := g
    simp only [countFailedG, countNodesG]
    exact Nat.add_le_add (countFailedL_le w ns) ih

theorem countFailedL_lt (w : World) (n : Node)
    (hs : (w.channel n.host).isSome = true) :
    ∀ ns : List Node, n ∈ ns → countFailedL w ns < ns.length := by
  intro ns
  induction ns with
  | nil => intro hn; cases hn
  | cons x xs ih =>
    intro hn
    rw [countFailedL_cons, List.length_cons]
    rcases List.mem_cons.mp hn with heq | hmem
    · have hfalse : (w.channel x.host).isNone = false := by
        subst heq
        cases hcx : w.channel n.host with
        | none => rw [hcx] at hs; simp at hs
        | some c => simp
      rw [hfalse]
      have := countFailedL_le w xs
      simp only [Bool.false_eq_true, if_false]
      omega
    · have := ih hmem
      have hle : (if (w.channel x.host).isNone = true then 1 else 0) ≤ 1 := by
        split <;> omega
      omega

theorem countFailedG_lt (w : World) (t : String) (ns : List Node) (n : Node)
    (hn : n ∈ ns) (hs : (w.channel n.host).isSome = true) :
    ∀ gs : Inventory, (t, ns) ∈ gs → countFailedG w gs < countNodesG gs := by
  intro gs
  induction gs with
  | nil => intro hmem; cases hmem
  | cons g rest ih =>
    obtain ⟨t₁, ns₁⟩ := g
    intro hmem
    simp only [countFailedG, countNodesG]
    rcases List.mem_cons.mp hmem with heq | hmem'
    · injection heq with h1 h2
      subst h1
      subst h2
      have h₁ := countFailedL_lt w n hs ns hn
      have h₂ := countFailedG_le w rest
      omega
    · have h₁ := countFailedL_le w ns₁
      have h₂ := ih hmem'
      omega

theorem run_role_all_closed (w : World) (cn : Inventory) (t : String) :
    ∀ (ns : List Node) (st : LoopState),
    (∀ n ∈ ns, (w.channel n.host).isNone = true) →
    ∃ st', run_role w cn t ns st = StepResult.ok st' ∧ st'.store = st.store ∧
      st'.total = st.total + ns.length ∧ st'.failed = st.failed + ns.length := by
  intro ns
  induction ns with
  | nil =>
    intro st _
    exact ⟨st, rfl, rfl, by simp, by simp⟩
  | cons n ns ih =>
    intro st hall
    have hc : w.channel n.host = none :=
      Option.isNone_iff_eq_none.mp (hall n (List.mem_cons_self n ns))
    simp only [run_role, process_node_unreachable w cn t n st hc]
    obtain ⟨st', h1, h2, h3, h4⟩ :=
      ih ⟨st.store,
        st.events ++ [Event.connection n.host "connecting" Status.pending,
          Event.connection n.host "failed" Status.failure],
        st.total + 1, st.failed + 1⟩
      (fun x hx => hall x (List.mem_cons_of_mem n hx))
    refine ⟨st', h1, by simpa using h2, by simp at h3 ⊢; omega, by simp at h4 ⊢; omega⟩

theorem run_groups_all_closed (w : World) (cn : Inventory) :
    ∀ (gs : Inventory) (st : LoopState),
    (∀ t ns, (t, ns) ∈ gs → ∀ n ∈ ns, (w.channel n.host).isNone = true) →
    ∃ st', run_groups w cn gs st = StepResult.ok st' ∧ st'.store = st.store ∧
      st'.total = st.total + countNodesG gs ∧
      st'.failed = st.failed + countNodesG gs := by
  intro gs
  induction gs with
  | nil =>
    intro st _
    exact ⟨st, rfl, rfl, by simp [countNodesG], by simp [countNodesG]⟩
  | cons g rest ih =>
    obtain ⟨t, ns⟩ := g
    intro st hall
    obtain ⟨st₁, r1, r2, r3, r4⟩ := run_role_all_closed w cn t ns st
      (hall t ns (List.mem_cons_self _ _))
    simp only [run_groups, r1]
    obtain ⟨st', g1, g2, g3, g4⟩ := ih st₁
      (fun t' ns' hmem => hall t' ns' (List.mem_cons_of_mem _ hmem))
    refine ⟨st', g1, by rw [g2, r2], ?_, ?_⟩
    · rw [g3, r3]
      simp only [countNodesG]
      omega
    · rw [g4, r4]
      simp only [countNodesG]
      omega

theorem run_role_ok (w : World) (cn : Inventory) (t : String)
    (hbok : ∀ (hst : String) (c : Conn), w.channel hst = some c →
      isOkE (node_build c cn) = true) :
    ∀ (ns : List Node) (st : LoopState),
    ∃ st', run_role w cn t ns st = StepResult.ok st' ∧
      st'.total = st.total + ns.length ∧
      st'.failed = st.failed + countFailedL w ns ∧
      (∀ r h, (store_get r h st.store).isSome = true →
        (store_get r h st'.store).isSome = true) ∧
      (∀ n ∈ ns, (w.channel n.host).isSome = true →
        (store_get t n.host st'.store).isSome = true) := by
  intro ns
  induction ns with
  | nil =>
    intro st
    exact ⟨st, rfl, by simp, by simp [countFailedL], fun r h hs => hs, by simp⟩
  | cons n ns ih =>
    intro st
    cases hc : w.channel n.host with
    | none =>
      simp only [run_role, process_node_unreachable w cn t n st hc]
      obtain ⟨st', h1, h2, h3, h4, h5⟩ :=
        ih ⟨st.store,
          st.events ++ [Event.connection n.host "connecting" Status.pending,
            Event.connection n.host "failed" Status.failure],
          st.total + 1, st.failed + 1⟩
      refine ⟨st', h1, ?_, ?_, fun r h hs => h4 r h hs, ?_⟩
      · simp at h2 ⊢
        omega
      · rw [countFailedL_cons]
        simp only [hc, Option.isNone_none, if_true]
        simp at h3 ⊢
        omega
      · intro n' hn' hsome
        rcases List.mem_cons.mp hn' with heq | hmem
        · subst heq
          rw [hc] at hsome
          simp at hsome
        · exact h5 n' hmem hsome
    | some conn =>
      have hokE := hbok n.host conn hc
      have hok : ∃ m, node_build conn cn = Except.ok m := by
        cases hnb : node_build conn cn with
        | error e => rw [hnb] at hokE; simp [isOkE] at hokE
        | ok m => exact ⟨m, rfl⟩
      obtain ⟨m, hm⟩ := hok
      simp only [run_role, process_node_success w cn t n st conn m hc hm]
      obtain ⟨st', h1, h2, h3, h4, h5⟩ :=
        ih ⟨store_set t n.host m st.store,
          st.events ++ success_events t n.host, st.total + 1, st.failed⟩
      refine ⟨st', h1, ?_, ?_, ?_, ?_⟩
      · simp at h2 ⊢
        omega
      · rw [countFailedL_cons]
        simp only [hc, Option.isNone_some, Bool.false_eq_true, if_false]
        simp at h3 ⊢
        omega
      · intro r h hs
        exact h4 r h (store_get_set_isSome_mono r t h n.host m st.store hs)
      · intro n' hn' hsome
        rcases List.mem_cons.mp hn' with heq | hmem
        · subst heq
          refine h4 t n'.host ?_
          rw [store_get_set_self]
          rfl
        · exact h5 n' hmem hsome

theorem run_groups_ok (w : World) (cn : Inventory)
    (hbok : ∀ (hst : String) (c : Conn), w.channel hst = some c →
      isOkE (node_build c cn) = true) :
    ∀ (gs : Inventory) (st : LoopState),
    ∃ st', run_groups w cn gs st = StepResult.ok st' ∧
      st'.total = st.total + countNodesG gs ∧
      st'.failed = st.failed + countFailedG w gs ∧
      (∀ r h, (store_get r h st.store).isSome = true →
        (store_get r h st'.store).isSome = true) ∧
      (∀ t ns, (t, ns) ∈ gs → ∀ n ∈ ns, (w.channel n.host).isSome = true →
        (store_get t n.host st'.store).isSome = true) := by
  intro gs
  induction gs with
  | nil =>
    intro st
    exact ⟨st, rfl, by simp [countNodesG], by simp [countFailedG],
      fun r h hs => hs, by simp⟩
  | cons g rest ih =>
    obtain ⟨t, ns⟩ := g
    intro st
    obtain ⟨st₁, r1, r2, r3, r4, r5⟩ := run_role_ok w cn t hbok ns st
    simp only [run_groups, r1]
    obtain ⟨st', g1, g2, g3, g4, g5⟩ := ih st₁
    refine ⟨st', g1, ?_, ?_, fun r h hs => g4 r h (r4 r h hs), ?_⟩
    · rw [g2, r2]
      simp only [countNodesG]
      omega
    · rw [g3, r3]
      simp only [countFailedG]
      omega
    · intro t' ns' hmem n hn hsome
      rcases List.mem_cons.mp hmem with heq | hmem'
      · injection heq with h1 h2
        subst h1
        subst h2
        exact g4 t' n.host (r5 n hn hsome)
      · exact g5 t' ns' hmem' n hn hsome

/-- C1 (amended): for every inventory in which at least one node has an
open channel and in which every host whose channel opens has a fully
successful build, collect terminates normally reporting completion; every
host whose channel fails to open is absent from the store, and every
inventory node whose channel opens has an entry under its role and host.
The amendment adds the all-open-builds-succeed condition: a build failure
on any other node makes collect raise (see the counterexample). -/
theorem collect_completes_when_builds_ok (w : World) (inv : Inventory)
    (hbok : ∀ (hst : String) (c : Conn), w.channel hst = some c →
      isOkE (node_build c inv) = true)
    (t₀ : String) (ns₀ : List Node) (n₀ : Node)
    (hmem : (t₀, ns₀) ∈ inv) (hn₀ : n₀ ∈ ns₀)
    (hreach : (w.channel n₀.host).isSome = true) :
    (collect w inv).outcome = Outcome.completed ∧
    (∀ r h, (w.channel h).isNone = true →
      store_get r h (collect w inv).store = none) ∧
    (∀ t ns n, (t, ns) ∈ inv → n ∈ ns → (w.channel n.host).isSome = true →
      (store_get t n.host (collect w inv).store).isSome = true) := by
  obtain ⟨st', h1, h2, h3, h4, h5⟩ := run_groups_ok w inv hbok inv ⟨[], [], 0, 0⟩
  have hnef : ¬ st'.failed = st'.total := by
    rw [h2, h3]
    have := countFailedG_lt w t₀ ns₀ n₀ hn₀ hreach inv hmem
    simp only [Nat.zero_add]
    omega
  have hcoll : collect w inv = ⟨Outcome.completed, st'.store, st'.events⟩ := by
    simp [collect, h1, hnef]
  rw [hcoll]
  refine ⟨rfl, ?_, ?_⟩
  · intro r h hch
    have habs := run_groups_absent w inv inv ⟨[], [], 0, 0⟩ r h
      (Option.isNone_iff_eq_none.mp hch) rfl
    rw [h1] at habs
    simpa [stepState] using habs
  · intro t ns n hm hn hsome
    exact h5 t ns hm n hn hsome

/-- C1 counterexample: in the two-mon world, mon0's channel opens and its
build completes (it is even committed to the store), yet collect does not
terminate normally, because mon1's version query failure escapes the
loop. -/
theorem collect_raises_despite_reachable_node :
    isOkE (node_build goodConn invMixed) = true ∧
    wMixed.channel "mon0" = some goodConn ∧
    (store_get "mons" "mon0" (collect wMixed invMixed).store).isSome = true ∧
    (collect wMixed invMixed).outcome =
      Outcome.buildError "mon1" (RemoteError.remoteCallError "ceph --version failed") ∧
    (collect wMixed invMixed).outcome ≠ Outcome.completed := by
  refine ⟨by decide, rfl, by decide, by decide, by decide⟩

/-- C1 witness: the amended theorem applied to a run with one healthy
reachable mon0 and one unreachable monX. -/
theorem collect_completes_when_builds_ok_witness :
    (collect wGoodOnly invGoodX).outcome = Outcome.completed ∧
    store_get "mons" "monX" (collect wGoodOnly invGoodX).store = none ∧
    (store_get "mons" "mon0" (collect wGoodOnly invGoodX).store).isSome = true := by
  have hbok : ∀ (hst : String) (c : Conn), wGoodOnly.channel hst = some c →
      isOkE (node_build c invGoodX) = true := by
    intro hst c hc
    by_cases hh : hst = "mon0"
    · subst hh
      have h0 : wGoodOnly.channel "mon0" = some goodConn := rfl
      rw [h0] at hc
      injection hc with h'
      rw [← h']
      decide
    · have h0 : wGoodOnly.channel hst = none := by
        simp [wGoodOnly, hh]
      rw [h0] at hc
      cases hc
  obtain ⟨h1, h2, h3⟩ := collect_completes_when_builds_ok wGoodOnly invGoodX hbok
    "mons" [⟨"mon0"⟩, ⟨"monX"⟩] ⟨"mon0"⟩ (by decide) (by decide) rfl
  exact ⟨h1, h2 "mons" "monX" rfl,
    h3 "mons" [⟨"mon0"⟩, ⟨"monX"⟩] ⟨"mon0"⟩ (by decide) (by decide) rfl⟩

/-- C2: when channel opening fails for every node of a non-empty
inventory, collect terminates with the distinct all-nodes-failed outcome
(not a per-node build error) and the metadata store holds no node
entries. -/
theorem collect_all_unreachable (w : World) (inv : Inventory)
    (_hne : inv ≠ [])
    (hall : ∀ t ns, (t, ns) ∈ inv → ∀ n ∈ ns, (w.channel n.host).isNone = true) :
    (collect w inv).outcome = Outcome.allNodesFailed ∧
    (collect w inv).store = [] ∧
    (∀ h e, (collect w inv).outcome ≠ Outcome.buildError h e) := by
  obtain ⟨st', h1, h2, h3, h4⟩ := run_groups_all_closed w inv inv ⟨[], [], 0, 0⟩ hall
  have heq : st'.failed = st'.total := by rw [h3, h4]
  have hcoll : collect w inv = ⟨Outcome.allNodesFailed, st'.store, st'.events⟩ := by
    simp [collect, h1, heq]
  rw [hcoll]
  refine ⟨rfl, h2, ?_⟩
  intro h e
  simp

/-- C2 witness: the theorem applied to a single-mon inventory in a world
with no reachable host. -/
theorem collect_all_unreachable_witness :
    (collect wNone invMon0).outcome = Outcome.allNodesFailed ∧
    (collect wNone invMon0).store = [] ∧
    (∀ h e, (collect wNone invMon0).outcome ≠ Outcome.buildError h e) := by
  exact collect_all_unreachable wNone invMon0 (by simp [invMon0])
    (by intro t ns hmem n hn; rfl)

/-- C3 (amended): for every node whose channel opens but whose build
fails, wherever that node sits in the run — any loop state st already
accumulated by the earlier (successful or unreachable) nodes, any
remaining nodes ns of its role group and any remaining groups gs — the
loop raises out with that node's host and error: the store stays exactly
st.store, so no entry is committed for the failing node and the
remaining nodes, quantified arbitrarily yet absent from the result, are
never processed; and collect forwards every such escaped raise as its
buildError outcome instead of recovering and continuing. -/
theorem build_failure_aborts_collect (w : World) (cn : Inventory) (t : String)
    (n : Node) (ns : List Node) (gs : Inventory) (st : LoopState)
    (conn : Conn) (e : RemoteError)
    (hc : w.channel n.host = some conn)
    (hb : node_build conn cn = Except.error e) :
    (∃ evs, run_groups w cn ((t, n :: ns) :: gs) st =
      StepResult.raised ⟨st.store, st.events ++ evs, st.total + 1, st.failed⟩
        n.host e) ∧
    (∀ (inv : Inventory) (st₁ : LoopState) (h₁ : String) (e₁ : RemoteError),
      run_groups w inv inv ⟨[], [], 0, 0⟩ = StepResult.raised st₁ h₁ e₁ →
      collect w inv = ⟨Outcome.buildError h₁ e₁, st₁.store, st₁.events⟩) := by
  constructor
  · obtain ⟨evs, hpn, hcl⟩ := process_node_raised w cn t n st conn e hc hb
    exact ⟨evs, by simp [run_groups, run_role, hpn]⟩
  · intro inv st₁ h₁ e₁ hrg
    simp [collect, hrg]

/-- C3 counterexample: mon0's channel opens, its version query fails, and
collect neither recovers nor continues: the outcome is the escaped build
error and the healthy mon1 that follows is absent from the store. -/
theorem build_failure_not_recovered :
    wBadFirst.channel "mon0" = some badConn ∧
    node_build badConn invMixed =
      Except.error (RemoteError.remoteCallError "ceph --version failed") ∧
    (collect wBadFirst invMixed).outcome =
      Outcome.buildError "mon0" (RemoteError.remoteCallError "ceph --version failed") ∧
    store_get "mons" "mon1" (collect wBadFirst invMixed).store = none := by
  refine ⟨rfl, rfl, by decide, by decide⟩

/-- C3 witness: the amended theorem applied mid-run in the mixed world,
to the failing mon1 reached after mon0 was processed successfully and
committed. -/
theorem build_failure_aborts_collect_witness :
    (∃ evs, run_groups wMixed invMixed [("mons", [⟨"mon1"⟩])] stAfterMon0 =
      StepResult.raised ⟨stAfterMon0.store, stAfterMon0.events ++ evs,
        stAfterMon0.total + 1, stAfterMon0.failed⟩ "mon1"
        (RemoteError.remoteCallError "ceph --version failed")) ∧
    (∀ (inv : Inventory) (st₁ : LoopState) (h₁ : String) (e₁ : RemoteError),
      run_groups wMixed inv inv ⟨[], [], 0, 0⟩ = StepResult.raised st₁ h₁ e₁ →
      collect wMixed inv = ⟨Outcome.buildError h₁ e₁, st₁.store, st₁.events⟩) := by
  exact build_failure_aborts_collect wMixed invMixed "mons" ⟨"mon1"⟩ [] [] stAfterMon0
    badConn (RemoteError.remoteCallError "ceph --version failed") rfl rfl

/-- C4 (amended): for a node whose channel opens, the channel is closed
as the final action of that node's processing exactly when the build
completes; when the build raises, the node's processing emits no close
event at all, so the channel leaks. -/
theorem channel_close_iff_build_ok (w : World) (cn : Inventory) (t : String)
    (n : Node) (st : LoopState) (conn : Conn)
    (hc : w.channel n.host = some conn) :
    (isOkE (node_build conn cn) = true →
      ((stepState (process_node w cn t n st)).events).getLast? =
        some (Event.closed n.host)) ∧
    (isOkE (node_build conn cn) = false →
      Event.closed n.host ∉
        ((stepState (process_node w cn t n st)).events.drop st.events.length)) := by
  cases hb : node_build conn cn with
  | ok m =>
    constructor
    · intro _
      rw [process_node_success w cn t n st conn m hc hb]
      simp only [stepState]
      rw [List.getLast?_append_of_ne_nil st.events (by simp [success_events])]
      rfl
    · intro hfalse
      simp [isOkE] at hfalse
  | error e =>
    constructor
    · intro htrue
      simp [isOkE] at htrue
    · intro _
      obtain ⟨evs, hpn, hcl⟩ := process_node_raised w cn t n st conn e hc hb
      rw [hpn]
      simp only [stepState]
      rw [List.drop_left]
      exact hcl

/-- C4 counterexample: mon0's channel opens, the build raises, and the
whole run emits no close event for mon0: the channel is not released on
the raising exit path. -/
theorem channel_not_closed_on_raise :
    wBadFirst.channel "mon0" = some badConn ∧
    Event.closed "mon0" ∉ (collect wBadFirst invMixed).events := by
  refine ⟨rfl, by decide⟩

/-- C4 witness: the amended theorem applied to the failing mon0 node. -/
theorem channel_close_iff_build_ok_witness :
    (isOkE (node_build badConn invMixed) = true →
      ((stepState (process_node wBadFirst invMixed "mons" ⟨"mon0"⟩
        ⟨[], [], 0, 0⟩)).events).getLast? = some (Event.closed "mon0")) ∧
    (isOkE (node_build badConn invMixed) = false →
      Event.closed "mon0" ∉
        ((stepState (process_node wBadFirst invMixed "mons" ⟨"mon0"⟩
          ⟨[], [], 0, 0⟩)).events.drop (List.length ([] : List Event)))) := by
  exact channel_close_iff_build_ok wBadFirst invMixed "mons" ⟨"mon0"⟩ ⟨[], [], 0, 0⟩
    badConn rfl

/-- C8 (code bug): on a fully successful node the progress stream opens a
devices phase but closes it under the label paths, and the two ceph build
steps are also reported under the label paths: no notification labelled
ceph is ever emitted and the label paths gets four success
notifications (source lines 163, 167 and 169 reuse the paths label). -/
theorem phase_labels_bug :
    Event.collecting "mon0" "devices" Status.pending ∈ resMon0.events ∧
    Event.collecting "mon0" "devices" Status.success ∉ resMon0.events ∧
    Event.collecting "mon0" "ceph" Status.pending ∉ resMon0.events ∧
    Event.collecting "mon0" "ceph" Status.success ∉ resMon0.events ∧
    List.count (Event.collecting "mon0" "paths" Status.success) resMon0.events = 4 := by
  decide

/-- C9: an inventory with no role groups, or whose every role group has
an empty node list, makes the failed count (zero) equal the total count
(zero), so collect raises the same all-nodes-failed error as the
all-unreachable case and never reports completion. -/
theorem collect_empty_inventory (w : World) (inv : Inventory)
    (hempty : ∀ t ns, (t, ns) ∈ inv → ns = []) :
    (collect w inv).outcome = Outcome.allNodesFailed ∧
    (collect w inv).outcome ≠ Outcome.completed := by
  have hall : ∀ t ns, (t, ns) ∈ inv → ∀ n ∈ ns, (w.channel n.host).isNone = true := by
    intro t ns hmem n hn
    rw [hempty t ns hmem] at hn
    cases hn
  obtain ⟨st', h1, h2, h3, h4⟩ := run_groups_all_closed w inv inv ⟨[], [], 0, 0⟩ hall
  have heq : st'.failed = st'.total := by rw [h3, h4]
  have hcoll : collect w inv = ⟨Outcome.allNodesFailed, st'.store, st'.events⟩ := by
    simp [collect, h1, heq]
  rw [hcoll]
  exact ⟨rfl, by simp⟩

/-- C9 witness: the theorem applied to the inventory holding one empty
role group. -/
theorem collect_empty_inventory_witness :
    (collect wNone [("mons", ([] : List Node))]).outcome = Outcome.allNodesFailed ∧
    (collect wNone [("mons", ([] : List Node))]).outcome ≠ Outcome.completed := by
  exact collect_empty_inventory wNone [("mons", [])]
    (by intro t ns hmem; simp at hmem; exact hmem.2)

/-- C10: an entry present in the store before the remaining nodes run is
still present afterwards, also when a later node's build raises (the run
result keeps the store of the moment the exception escaped), and collect
never rolls the store back: its result store is exactly the loop state's
store on every outcome. -/
theorem commit_no_rollback (w : World) (cn gs : Inventory) (st : LoopState)
    (r h : String) (hs : (store_get r h st.store).isSome = true) :
    (store_get r h (stepState (run_groups w cn gs st)).store).isSome = true ∧
    (collect w cn).store = (stepState (run_groups w cn cn ⟨[], [], 0, 0⟩)).store := by
  refine ⟨run_groups_store_mono w cn gs st r h hs, ?_⟩
  unfold collect
  cases hr : run_groups w cn cn ⟨[], [], 0, 0⟩ with
  | ok st₁ =>
    simp only [stepState]
    split <;> rfl
  | raised st₁ host e =>
    simp [stepState]

/-- C10 witness: a pre-committed monA entry survives a run whose only
node raises out of the loop. -/
theorem commit_no_rollback_witness :
    (store_get "mons" "monA"
      (stepState (run_groups wBadFirst invMon0 invMon0 stA)).store).isSome = true ∧
    (collect wBadFirst invMon0).store =
      (stepState (run_groups wBadFirst invMon0 invMon0 ⟨[], [], 0, 0⟩)).store := by
  exact commit_no_rollback wBadFirst invMon0 invMon0 stA "mons" "monA" (by decide)

end CephMedic
